import Mathlib

/-!
# Verification of the cosigner-pool exchange protocol

Shallow embedding of `src/plugins/cosigner_pool.py` (Electrum cosigner pool
plugin): the polling `Listener`, the directory rebuild in `Plugin.update`,
the send path `Plugin.do_send` and the receive path `Plugin.on_receive`.

External collaborators (the xml-rpc server, the wallet, Qt dialogs, the
`bitcoin` crypto helpers) are modelled as explicit oracle parameters; the
control flow and state updates of the plugin file itself are translated
line by line.
-/

/-- A key hash (hex string) identifying a cosigner slot on the pool server. -/
abbrev Keyhash := String

/-- An encrypted message blob stored on the pool server. -/
abbrev Message := String

/-- Outcome of one `server.get(keyhash)` call in `Listener.run`
(`cosigner_pool.py:68`): the call can raise (transport/service failure),
return a falsy value (no message stored), or return a message. -/
inductive GetResult where
  | err : GetResult
  | empty : GetResult
  | msg (m : Message) : GetResult
deriving DecidableEq

/-- Observable actions of the listener loop: `print_error` log lines,
`time.sleep` pauses (seconds), and `cosigner:receive` signal emissions. -/
inductive Event where
  | log (s : String) : Event
  | sleep (seconds : Nat) : Event
  | notify (kh : Keyhash) (m : Message) : Event
deriving DecidableEq

/-- Mutable state of a `Listener` object: the `running` flag inherited from
`util.DaemonThread`, `self.received` (a set, modelled as a duplicate-free
list) and `self.keyhashes` (a list), per `Listener.__init__`
(`cosigner_pool.py:45-50`). -/
structure ListenerState where
  running : Bool
  received : List Keyhash
  keyhashes : List Keyhash
deriving DecidableEq

/-- `Listener.__init__` (`cosigner_pool.py:45-50`): `self.received = set()`,
`self.keyhashes = []`; the `running` flag starts false until `start()`. -/
def Listener.init : ListenerState :=
  { running := false, received := [], keyhashes := [] }

/-- `Listener.set_keyhashes` (`cosigner_pool.py:52-53`): wholesale
replacement of `self.keyhashes`; nothing else is touched. -/
def Listener.set_keyhashes (st : ListenerState) (keyhashes : List Keyhash) :
    ListenerState :=
  { st with keyhashes := keyhashes }

/-- Result of `Listener.clear` (`cosigner_pool.py:55-57`): either the method
returns normally with the updated state, or an exception propagates to the
caller leaving the state as recorded. -/
inductive ClearResult where
  | ok (st : ListenerState) : ClearResult
  | raised (st : ListenerState) : ClearResult
deriving DecidableEq

/-- The listener state recorded in a `ClearResult`. -/
def ClearResult.state : ClearResult → ListenerState
  | .ok st => st
  | .raised st => st

/-- `Listener.clear` (`cosigner_pool.py:55-57`): `server.delete(keyhash)`
runs first (`deleteOk` tells whether it raises); only if it returns does
`self.received.remove(keyhash)` run, which itself raises `KeyError` when the
keyhash is not in the set. -/
def Listener.clear (deleteOk : Bool) (st : ListenerState) (keyhash : Keyhash) :
    ClearResult :=
  if deleteOk then
    if keyhash ∈ st.received then
      .ok { st with received := st.received.erase keyhash }
    else
      .raised st
  else
    .raised st

/-- Sleep taken when the watch list is empty (`time.sleep(2)`,
`cosigner_pool.py:62`). -/
def emptySleep : Nat := 2

/-- Sleep taken when `server.get` raises (`time.sleep(30)`,
`cosigner_pool.py:71`). -/
def errorSleep : Nat := 30

/-- Inter-cycle sleep after scanning the watch list (`time.sleep(30)`,
"poll every 30 seconds", `cosigner_pool.py:78-79`). -/
def pollInterval : Nat := 30

/-- One iteration of the `for keyhash in self.keyhashes` body in
`Listener.run` (`cosigner_pool.py:64-77`): skip already-received hashes;
on a `get` failure log and sleep `errorSleep`; on a truthy message add the
keyhash to `received`, log, and emit the `cosigner:receive` signal. -/
def pollKey (get : Keyhash → GetResult) (st : ListenerState) (kh : Keyhash) :
    ListenerState × List Event :=
  if kh ∈ st.received then (st, [])
  else
    match get kh with
    | .err => (st, [.log "cannot contact cosigner pool", .sleep errorSleep])
    | .empty => (st, [])
    | .msg m =>
        ({ st with received := st.received.insert kh },
         [.log "received message for", .notify kh m])

/-- The full `for` loop over a list of keyhashes, threading the state and
concatenating the events in program order. -/
def pollKeys (get : Keyhash → GetResult) (st : ListenerState) :
    List Keyhash → ListenerState × List Event
  | [] => (st, [])
  | kh :: rest =>
      let p := pollKey get st kh
      let q := pollKeys get p.1 rest
      (q.1, p.2 ++ q.2)

/-- One pass of the `while self.running` body in `Listener.run`
(`cosigner_pool.py:60-79`): with an empty watch list sleep `emptySleep` and
re-check; otherwise scan the watch list and sleep `pollInterval`. -/
def runCycle (get : Keyhash → GetResult) (st : ListenerState) :
    ListenerState × List Event :=
  if st.keyhashes = [] then (st, [.sleep emptySleep])
  else
    let p := pollKeys get st st.keyhashes
    (p.1, p.2 ++ [.sleep pollInterval])

/-- One guarded loop step: the `while self.running` check
(`cosigner_pool.py:60`) — a stopped listener does nothing. -/
def runStep (get : Keyhash → GetResult) (st : ListenerState) :
    ListenerState × List Event :=
  if st.running then runCycle get st else (st, [])

/-- A finite run of the listener loop, one `get` oracle per cycle (the
server's answers may change between cycles). -/
def runCycles : List (Keyhash → GetResult) → ListenerState →
    ListenerState × List Event
  | [], st => (st, [])
  | g :: gs, st =>
      let p := runStep g st
      let q := runCycles gs p.1
      (q.1, p.2 ++ q.2)

/-- Modelled from the spec: `util.DaemonThread.stop` is not part of this
repository's sources (only `Listener.run` reads the `running` flag). Per the
spec's cancellation contract — "stop() must be idempotent and must guarantee
no further notifications are emitted once it returns (bounded wait for the
in-flight poll to observe the stop signal)" — it is modelled as clearing the
`running` flag, taking effect at a cycle boundary. -/
def Listener.stop (st : ListenerState) : ListenerState :=
  { st with running := false }

/-- Modelled from the spec: `util.DaemonThread.start` is not part of this
repository's sources; it sets the `running` flag so the polling loop of
`Listener.run` proceeds. -/
def Listener.start (st : ListenerState) : ListenerState :=
  { st with running := true }

/-- Number of `cosigner:receive` emissions for a given keyhash in an event
trace. -/
def countNotify (kh : Keyhash) (evs : List Event) : Nat :=
  (evs.filter fun e =>
    match e with
    | .notify k _ => k == kh
    | _ => false).length

/-! ## Send path (`Plugin.do_send`, `Plugin.cosigner_can_sign`) -/

/-- One transaction input, carrying its `x_pubkeys` list
(`cosigner_pool.py:154-155`). -/
structure TxInput where
  x_pubkeys : List String
deriving DecidableEq

/-- A partially signed transaction as seen by this plugin: its raw
serialization (`tx.raw`, encrypted and sent in `do_send`) and its inputs
(scanned by `cosigner_can_sign`). -/
structure Tx where
  raw : String
  inputs : List TxInput
deriving DecidableEq

/-- `Plugin.cosigner_can_sign`'s `xpub_set` (`cosigner_pool.py:153-158`):
collect `x_to_xpub(x_pubkey)` over every input's `x_pubkeys`, keeping only
truthy results. `x_to_xpub` lives in `electrum.transaction` (external) and
is passed as an oracle. -/
def xpub_set (x_to_xpub : String → Option String) (tx : Tx) : List String :=
  tx.inputs.foldl
    (fun acc txin =>
      txin.x_pubkeys.foldl
        (fun acc2 xpk =>
          match x_to_xpub xpk with
          | some xpub => acc2.insert xpub
          | none => acc2)
        acc)
    []

/-- `Plugin.cosigner_can_sign` (`cosigner_pool.py:151-160`): membership of
the cosigner's xpub in the transaction's xpub set. -/
def cosigner_can_sign (x_to_xpub : String → Option String) (tx : Tx)
    (cosigner_xpub : String) : Bool :=
  decide (cosigner_xpub ∈ xpub_set x_to_xpub tx)

/-- One `self.cosigner_list` entry built by `Plugin.update`
(`cosigner_pool.py:128`): the tuple `(window, xpub, K, _hash)`. Windows are
identified by an opaque numeric handle. -/
structure TheirsEntry where
  window : Nat
  xpub : String
  K : String
  hash : Keyhash
deriving DecidableEq

/-- Observable actions of `Plugin.do_send`: the `server.put` call with its
outcome, the `traceback.print_exc()` on failure, and the `show_message`
dialogs. -/
inductive SendEvent where
  | putCall (hash : Keyhash) (m : Message) (ok : Bool) : SendEvent
  | printExc : SendEvent
  | showMessage (window : Nat) (text : String) : SendEvent
deriving DecidableEq

/-- The failure dialog text in `do_send` (`cosigner_pool.py:171`). -/
def sendFailText : String := "Failed to send transaction to cosigning pool."

/-- The success dialog text in `do_send` (`cosigner_pool.py:173`). -/
def sendOkText : String :=
  "Your transaction was sent to the cosigning pool.\nOpen your cosigner wallet to retrieve it."

/-- `Plugin.do_send` (`cosigner_pool.py:162-173`): iterate the cosigner
list; skip entries whose cosigner cannot sign; encrypt `tx.raw` under `K`
(`bitcoin.encrypt_message`, external, passed as `encrypt_message`); try
`server.put(_hash, message)` (`putOk` tells whether it raises). On failure
print the traceback, show the failure dialog on that entry's window and
`return`; on success show the success dialog and continue. -/
def do_send (putOk : Keyhash → Message → Bool)
    (x_to_xpub : String → Option String)
    (encrypt_message : String → String → Message) :
    List TheirsEntry → Tx → List SendEvent
  | [], _ => []
  | e :: rest, tx =>
      if cosigner_can_sign x_to_xpub tx e.xpub then
        let message := encrypt_message tx.raw e.K
        if putOk e.hash message then
          .putCall e.hash message true :: .showMessage e.window sendOkText ::
            do_send putOk x_to_xpub encrypt_message rest tx
        else
          [.putCall e.hash message false, .printExc,
           .showMessage e.window sendFailText]
      else
        do_send putOk x_to_xpub encrypt_message rest tx

/-- Number of `server.put` calls for a given keyhash in a send trace. -/
def countPut (hash : Keyhash) (evs : List SendEvent) : Nat :=
  (evs.filter fun e =>
    match e with
    | .putCall h _ _ => h == hash
    | _ => false).length

/-! ## Receive path (`Plugin.on_receive`) -/

/-- One `self.keys` entry built by `Plugin.update` (`cosigner_pool.py:126`):
the tuple `(key, _hash, window)`. -/
structure MineEntry where
  key : String
  hash : Keyhash
  window : Nat
deriving DecidableEq

/-- Oracle answers of the external wallet/window collaborator used by
`Plugin.on_receive` (`cosigner_pool.py:184-203`): `wallet.use_encryption`,
the password dialog result, the question dialog result,
`wallet.get_master_private_key`, and the whole
`deserialize_xkey`/`EC_KEY`/`decrypt_message` block, which either raises
(with a message rendered by `str(e)`) or yields the plaintext. -/
structure WalletEnv where
  use_encryption : Bool
  password_dialog : Option String
  question : Bool
  get_master_private_key : String → Option String → Option String
  decrypt : String → Message → Except String String

/-- Python truthiness of an optional string (`if not password`,
`if not xprv`): `None` and the empty string are falsy. -/
def optTruthy : Option String → Bool
  | none => false
  | some s => !s.isEmpty

/-- Observable actions of `Plugin.on_receive`: `print_error` log lines,
`traceback.print_exc()`, `show_message` dialogs, the `listener.clear` call
and the final `show_transaction`. -/
inductive RecvEvent where
  | log (s : String) : RecvEvent
  | printExc : RecvEvent
  | showMessage (window : Nat) (text : String) : RecvEvent
  | clearCall (kh : Keyhash) : RecvEvent
  | showTransaction (window : Nat) (tx : String) : RecvEvent
deriving DecidableEq

/-- `Plugin.on_receive` (`cosigner_pool.py:175-208`). `keys` is
`self.keys`; `env` maps a window handle to its wallet/dialog oracles;
`deleteOk` tells whether the `server.delete` inside `listener.clear`
returns. Every `return` in the source ends the event list at that point;
an exception propagating out of `clear` likewise stops the method before
`show_transaction`. -/
def on_receive (keys : List MineEntry) (env : Nat → WalletEnv)
    (deleteOk : Bool) (keyhash : Keyhash) (message : Message) :
    List RecvEvent :=
  let head := RecvEvent.log "signal arrived for"
  match keys.find? (fun e => e.hash == keyhash) with
  | none => [head, .log "keyhash not found"]
  | some entry =>
      let w := env entry.window
      let passOpt : Option (Option String) :=
        if w.use_encryption then
          if optTruthy w.password_dialog then some w.password_dialog else none
        else
          if w.question then some none else none
      match passOpt with
      | none => [head]
      | some password =>
          let xprvOpt := w.get_master_private_key entry.key password
          if optTruthy xprvOpt then
            match w.decrypt (xprvOpt.getD "") message with
            | .error e => [head, .printExc, .showMessage entry.window e]
            | .ok plain =>
                if deleteOk then
                  [head, .clearCall keyhash, .showTransaction entry.window plain]
                else
                  [head, .clearCall keyhash]
          else
            [head]

/-! ## Directory rebuild (`Plugin.update`) -/

/-- One open wallet window as seen by `Plugin.update`
(`cosigner_pool.py:121-128`): the window handle, the wallet's
`master_public_keys` dict (slot name → xpub) and `master_private_keys` dict
(slot name → xprv), both modelled as association lists. -/
structure WalletInfo where
  window : Nat
  master_public_keys : List (String × String)
  master_private_keys : List (String × String)

/-- Python `dict.get`: first binding for the key, if any. -/
def dictGet (d : List (String × String)) (k : String) : Option String :=
  (d.find? (fun p => p.1 == k)).map (fun p => p.2)

/-- Truthiness of `wallet.master_private_keys.get(key)`
(`cosigner_pool.py:125`): present and non-empty. -/
def privTruthy (w : WalletInfo) (key : String) : Bool :=
  optTruthy (dictGet w.master_private_keys key)

/-- The inner `for key, xpub in wallet.master_public_keys.items()` loop of
`Plugin.update` (`cosigner_pool.py:122-128`), threading the `(self.keys,
self.cosigner_list)` accumulators. `deserialize_last` stands for
`bitcoin.deserialize_xkey(xpub)[-1].encode('hex')` and `hashHex` for
`bitcoin.Hash(K).encode('hex')` (both external). -/
def updateWallet (deserialize_last hashHex : String → String)
    (w : WalletInfo) :
    List (String × String) → List MineEntry × List TheirsEntry →
    List MineEntry × List TheirsEntry
  | [], acc => acc
  | (key, xpub) :: rest, acc =>
      let K := deserialize_last xpub
      let h := hashHex K
      if privTruthy w key then
        updateWallet deserialize_last hashHex w rest
          (acc.1 ++ [⟨key, h, w.window⟩], acc.2)
      else
        updateWallet deserialize_last hashHex w rest
          (acc.1, acc.2 ++ [⟨w.window, xpub, K, h⟩])

/-- The outer `for wallet, window in wallets.items()` loop of
`Plugin.update` (`cosigner_pool.py:121-128`). -/
def updateWallets (deserialize_last hashHex : String → String) :
    List WalletInfo → List MineEntry × List TheirsEntry →
    List MineEntry × List TheirsEntry
  | [], acc => acc
  | w :: rest, acc =>
      updateWallets deserialize_last hashHex rest
        (updateWallet deserialize_last hashHex w w.master_public_keys acc)

/-- The directory-rebuild part of `Plugin.update`
(`cosigner_pool.py:119-128`): `self.keys = []; self.cosigner_list = []`
discards the previous contents (`prev`), then both loops refill them. -/
def Plugin.update (deserialize_last hashHex : String → String)
    (prev : List MineEntry × List TheirsEntry)
    (wallets : List WalletInfo) : List MineEntry × List TheirsEntry :=
  updateWallets deserialize_last hashHex wallets ([], [])

/-! ## Identifier derivation -/

/-- Modelled from the spec: `bitcoin.Hash` (the digest applied to the
public-key bytes at `cosigner_pool.py:124`) and `bitcoin.deserialize_xkey`
are not part of this repository's sources. The digest is modelled as an
abstract pure function on byte strings; its exact values are not
load-bearing, only purity and totality. -/
def hashDigest (bytes : List Nat) : Nat :=
  bytes.foldl (fun acc b => (acc * 257 + b % 256 + 1) % (2 ^ 256)) 0

/-- Error of identifier derivation on malformed key material. -/
inductive DeriveError where
  | InvalidKey : DeriveError
deriving DecidableEq

/-- Modelled from the spec: `derive(pubkeyBytes) -> Identifier` "applies a
cryptographic hash function to the raw public-key bytes and returns the
digest. Pure, total, deterministic. No failure modes other than malformed
input (empty/invalid key material), which must fail with an `InvalidKey`
error rather than silently producing a degenerate identifier." -/
def derive (pubkeyBytes : List Nat) : Except DeriveError Nat :=
  if pubkeyBytes.isEmpty then .error .InvalidKey
  else .ok (hashDigest pubkeyBytes)

/-! ## Listener lemmas -/

theorem pollKey_of_received {get : Keyhash → GetResult} {st : ListenerState}
    {kh : Keyhash} (h : kh ∈ st.received) : pollKey get st kh = (st, []) := by
  simp [pollKey, h]

theorem pollKey_mono {get : Keyhash → GetResult} {st : ListenerState}
    {kh kh' : Keyhash} (h : kh' ∈ st.received) :
    kh' ∈ (pollKey get st kh).1.received := by
  by_cases hm : kh ∈ st.received
  · simpa [pollKey, hm]
  · cases hg : get kh <;> simp [pollKey, hm, hg, List.mem_insert_iff, h]

theorem pollKey_notify_eq {get : Keyhash → GetResult} {st : ListenerState}
    {kh k : Keyhash} {m : Message}
    (h : Event.notify k m ∈ (pollKey get st kh).2) :
    k = kh ∧ kh ∉ st.received ∧ get kh = GetResult.msg m ∧
      (pollKey get st kh).1.received = st.received.insert kh := by
  by_cases hm : kh ∈ st.received
  · simp [pollKey, hm] at h
  · cases hg : get kh with
    | err => simp [pollKey, hm, hg] at h
    | empty => simp [pollKey, hm, hg] at h
    | msg m' =>
        simp [pollKey, hm, hg] at h
        obtain ⟨hk, hmm⟩ := h
        exact ⟨hk, hm, by simp [hg, hmm], by simp [pollKey, hm, hg]⟩

theorem pollKey_mem_self {get : Keyhash → GetResult} {st : ListenerState}
    {kh : Keyhash} {m : Message} (h : get kh = GetResult.msg m) :
    kh ∈ (pollKey get st kh).1.received := by
  by_cases hm : kh ∈ st.received
  · simp [pollKey, hm]
  · simp [pollKey, hm, h, List.mem_insert_iff]

theorem pollKeys_mono {get : Keyhash → GetResult} {l : List Keyhash}
    {st : ListenerState} {kh : Keyhash} (h : kh ∈ st.received) :
    kh ∈ (pollKeys get st l).1.received := by
  induction l generalizing st with
  | nil => simpa [pollKeys]
  | cons a rest ih =>
      simp only [pollKeys]
      exact ih (pollKey_mono h)

theorem pollKeys_no_notify {get : Keyhash → GetResult} {l : List Keyhash}
    {st : ListenerState} {kh : Keyhash} {m : Message} (h : kh ∈ st.received) :
    Event.notify kh m ∉ (pollKeys get st l).2 := by
  induction l generalizing st with
  | nil => simp [pollKeys]
  | cons a rest ih =>
      intro hmem
      simp only [pollKeys, List.mem_append] at hmem
      rcases hmem with h1 | h2
      · obtain ⟨hk, hnr, _, _⟩ := pollKey_notify_eq h1
        exact hnr (hk ▸ h)
      · exact ih (pollKey_mono h) h2

theorem pollKeys_notify_mem {get : Keyhash → GetResult} {l : List Keyhash}
    {st : ListenerState} {kh : Keyhash} {m : Message}
    (h : Event.notify kh m ∈ (pollKeys get st l).2) :
    kh ∈ (pollKeys get st l).1.received := by
  induction l generalizing st with
  | nil => simp [pollKeys] at h
  | cons a rest ih =>
      simp only [pollKeys, List.mem_append] at h ⊢
      rcases h with h1 | h2
      · obtain ⟨hk, _, hg, _⟩ := pollKey_notify_eq h1
        subst hk
        exact pollKeys_mono (pollKey_mem_self hg)
      · exact ih h2

theorem countNotify_append (kh : Keyhash) (a b : List Event) :
    countNotify kh (a ++ b) = countNotify kh a + countNotify kh b := by
  simp [countNotify, List.filter_append]

theorem countNotify_eq_zero {kh : Keyhash} {evs : List Event} :
    countNotify kh evs = 0 ↔ ∀ m, Event.notify kh m ∉ evs := by
  rw [countNotify, List.length_eq_zero, List.filter_eq_nil_iff]
  constructor
  · intro h m hm
    have := h _ hm
    simp at this
  · intro h e he
    cases e with
    | log s => simp
    | sleep n => simp
    | notify k m' =>
        simp only [beq_iff_eq]
        intro hk
        exact absurd he (by rw [hk]; exact h m')

theorem countNotify_pollKey_self {get : Keyhash → GetResult}
    {st : ListenerState} {kh : Keyhash} {m : Message}
    (h1 : kh ∉ st.received) (h2 : get kh = GetResult.msg m) :
    countNotify kh (pollKey get st kh).2 = 1 := by
  simp [pollKey, h1, h2, countNotify]

theorem countNotify_pollKeys_one {get : Keyhash → GetResult}
    {l : List Keyhash} {st : ListenerState} {kh : Keyhash} {m : Message}
    (h1 : kh ∉ st.received) (h2 : kh ∈ l) (h3 : get kh = GetResult.msg m) :
    countNotify kh (pollKeys get st l).2 = 1 := by
  induction l generalizing st with
  | nil => cases h2
  | cons a rest ih =>
      by_cases hak : a = kh
      · subst hak
        have hone := countNotify_pollKey_self h1 h3
        have hzero : countNotify a (pollKeys get (pollKey get st a).1 rest).2 = 0 := by
          rw [countNotify_eq_zero]
          intro m'
          exact pollKeys_no_notify (pollKey_mem_self h3)
        simp [pollKeys, countNotify_append, hone, hzero]
      · have hrest : kh ∈ rest := by
          rcases List.mem_cons.mp h2 with h | h
          · exact absurd h.symm hak
          · exact h
        have hz : countNotify kh (pollKey get st a).2 = 0 := by
          rw [countNotify_eq_zero]
          intro m' hmem
          obtain ⟨hk, _, _, _⟩ := pollKey_notify_eq hmem
          exact hak hk.symm
        have hpres : kh ∉ (pollKey get st a).1.received := by
          by_cases hm : a ∈ st.received
          · simpa [pollKey, hm] using h1
          · cases hg : get a with
            | err => simpa [pollKey, hm, hg] using h1
            | empty => simpa [pollKey, hm, hg] using h1
            | msg mm =>
                simp [pollKey, hm, hg, List.mem_insert_iff, not_or]
                exact ⟨fun hka => hak hka.symm, h1⟩
        simp [pollKeys, countNotify_append, hz, ih hpres hrest]

theorem runCycle_mono {get : Keyhash → GetResult} {st : ListenerState}
    {kh : Keyhash} (h : kh ∈ st.received) :
    kh ∈ (runCycle get st).1.received := by
  unfold runCycle
  split
  · simpa
  · exact pollKeys_mono h

theorem runCycle_no_notify {get : Keyhash → GetResult} {st : ListenerState}
    {kh : Keyhash} {m : Message} (h : kh ∈ st.received) :
    Event.notify kh m ∉ (runCycle get st).2 := by
  unfold runCycle
  split
  · simp
  · intro hmem
    simp only [List.mem_append] at hmem
    rcases hmem with h1 | h2
    · exact pollKeys_no_notify h h1
    · simp at h2

theorem runCycle_notify_mem {get : Keyhash → GetResult} {st : ListenerState}
    {kh : Keyhash} {m : Message}
    (h : Event.notify kh m ∈ (runCycle get st).2) :
    kh ∈ (runCycle get st).1.received := by
  by_cases hk : st.keyhashes = []
  · simp [runCycle, hk] at h
  · unfold runCycle at h ⊢
    rw [if_neg hk] at h ⊢
    simp only [List.mem_append, List.mem_singleton] at h
    rcases h with h1 | h1
    · simpa using pollKeys_notify_mem h1
    · simp at h1

theorem runStep_mono {get : Keyhash → GetResult} {st : ListenerState}
    {kh : Keyhash} (h : kh ∈ st.received) :
    kh ∈ (runStep get st).1.received := by
  unfold runStep
  split
  · exact runCycle_mono h
  · simpa

theorem runStep_no_notify {get : Keyhash → GetResult} {st : ListenerState}
    {kh : Keyhash} {m : Message} (h : kh ∈ st.received) :
    Event.notify kh m ∉ (runStep get st).2 := by
  unfold runStep
  split
  · exact runCycle_no_notify h
  · simp

theorem runStep_notify_mem {get : Keyhash → GetResult} {st : ListenerState}
    {kh : Keyhash} {m : Message}
    (h : Event.notify kh m ∈ (runStep get st).2) :
    kh ∈ (runStep get st).1.received := by
  unfold runStep at h ⊢
  split at h
  · next hr => simpa [hr] using runCycle_notify_mem h
  · simp at h

theorem runCycles_no_notify {gs : List (Keyhash → GetResult)}
    {st : ListenerState} {kh : Keyhash} {m : Message} (h : kh ∈ st.received) :
    Event.notify kh m ∉ (runCycles gs st).2 := by
  induction gs generalizing st with
  | nil => simp [runCycles]
  | cons g rest ih =>
      intro hmem
      simp only [runCycles, List.mem_append] at hmem
      rcases hmem with h1 | h2
      · exact runStep_no_notify h h1
      · exact ih (runStep_mono h) h2

theorem runCycles_stopped {gs : List (Keyhash → GetResult)}
    {st : ListenerState} (h : st.running = false) :
    runCycles gs st = (st, []) := by
  induction gs with
  | nil => simp [runCycles]
  | cons g rest ih => simp [runCycles, runStep, h, ih]

/-! ## Send-path lemmas -/

theorem do_send_append_of_ok (putOk : Keyhash → Message → Bool)
    (x_to_xpub : String → Option String)
    (encrypt_message : String → String → Message)
    (pre l : List TheirsEntry) (tx : Tx)
    (hok : ∀ e' ∈ pre, cosigner_can_sign x_to_xpub tx e'.xpub = true →
      putOk e'.hash (encrypt_message tx.raw e'.K) = true) :
    do_send putOk x_to_xpub encrypt_message (pre ++ l) tx =
      do_send putOk x_to_xpub encrypt_message pre tx ++
        do_send putOk x_to_xpub encrypt_message l tx := by
  induction pre with
  | nil => simp [do_send]
  | cons a rest ih =>
      by_cases hc : cosigner_can_sign x_to_xpub tx a.xpub = true
      · have hp := hok a (List.mem_cons_self a rest) hc
        simp only [List.cons_append, do_send, hc, if_true, hp]
        simp [ih fun e' he' hce' => hok e' (List.mem_cons_of_mem a he') hce']
      · simp only [List.cons_append, do_send, if_neg hc]
        exact ih fun e' he' hce' => hok e' (List.mem_cons_of_mem a he') hce'

/-! ## Directory lemmas -/

theorem updateWallet_mono_mine (dl hh : String → String) (w : WalletInfo)
    (pairs : List (String × String))
    (acc : List MineEntry × List TheirsEntry) {e : MineEntry}
    (h : e ∈ acc.1) : e ∈ (updateWallet dl hh w pairs acc).1 := by
  induction pairs generalizing acc with
  | nil => simpa [updateWallet]
  | cons p rest ih =>
      obtain ⟨key, xpub⟩ := p
      by_cases hp : privTruthy w key = true
      · simp only [updateWallet, hp, if_true]
        exact ih _ (List.mem_append_left _ h)
      · simp only [updateWallet, hp, if_false]
        exact ih _ h

theorem updateWallet_mono_theirs (dl hh : String → String) (w : WalletInfo)
    (pairs : List (String × String))
    (acc : List MineEntry × List TheirsEntry) {e : TheirsEntry}
    (h : e ∈ acc.2) : e ∈ (updateWallet dl hh w pairs acc).2 := by
  induction pairs generalizing acc with
  | nil => simpa [updateWallet]
  | cons p rest ih =>
      obtain ⟨key, xpub⟩ := p
      by_cases hp : privTruthy w key = true
      · simp only [updateWallet, hp, if_true]
        exact ih _ h
      · simp only [updateWallet, hp, if_false]
        exact ih _ (List.mem_append_left _ h)

theorem updateWallet_mem_mine (dl hh : String → String) (w : WalletInfo)
    (pairs : List (String × String))
    (acc : List MineEntry × List TheirsEntry) {key xpub : String}
    (hmem : (key, xpub) ∈ pairs) (hpriv : privTruthy w key = true) :
    (⟨key, hh (dl xpub), w.window⟩ : MineEntry) ∈
      (updateWallet dl hh w pairs acc).1 := by
  induction pairs generalizing acc with
  | nil => cases hmem
  | cons p rest ih =>
      obtain ⟨k, x⟩ := p
      rcases List.mem_cons.mp hmem with heq | hrest
      · injection heq with h1 h2
        subst h1; subst h2
        simp only [updateWallet, hpriv, if_true]
        exact updateWallet_mono_mine dl hh w rest _
          (List.mem_append_right _ (List.mem_singleton_self _))
      · by_cases hp : privTruthy w k = true
        · simp only [updateWallet, hp, if_true]
          exact ih _ hrest
        · simp only [updateWallet, hp, if_false]
          exact ih _ hrest

theorem updateWallet_mem_theirs (dl hh : String → String) (w : WalletInfo)
    (pairs : List (String × String))
    (acc : List MineEntry × List TheirsEntry) {key xpub : String}
    (hmem : (key, xpub) ∈ pairs) (hpriv : privTruthy w key = false) :
    (⟨w.window, xpub, dl xpub, hh (dl xpub)⟩ : TheirsEntry) ∈
      (updateWallet dl hh w pairs acc).2 := by
  induction pairs generalizing acc with
  | nil => cases hmem
  | cons p rest ih =>
      obtain ⟨k, x⟩ := p
      rcases List.mem_cons.mp hmem with heq | hrest
      · injection heq with h1 h2
        subst h1; subst h2
        simp only [updateWallet, hpriv, Bool.false_eq_true, if_false]
        exact updateWallet_mono_theirs dl hh w rest _
          (List.mem_append_right _ (List.mem_singleton_self _))
      · by_cases hp : privTruthy w k = true
        · simp only [updateWallet, hp, if_true]
          exact ih _ hrest
        · simp only [updateWallet, hp, if_false]
          exact ih _ hrest

theorem updateWallets_mono_mine (dl hh : String → String)
    (ws : List WalletInfo) (acc : List MineEntry × List TheirsEntry)
    {e : MineEntry} (h : e ∈ acc.1) :
    e ∈ (updateWallets dl hh ws acc).1 := by
  induction ws generalizing acc with
  | nil => simpa [updateWallets]
  | cons a rest ih =>
      simp only [updateWallets]
      exact ih _ (updateWallet_mono_mine dl hh a _ _ h)

theorem updateWallets_mono_theirs (dl hh : String → String)
    (ws : List WalletInfo) (acc : List MineEntry × List TheirsEntry)
    {e : TheirsEntry} (h : e ∈ acc.2) :
    e ∈ (updateWallets dl hh ws acc).2 := by
  induction ws generalizing acc with
  | nil => simpa [updateWallets]
  | cons a rest ih =>
      simp only [updateWallets]
      exact ih _ (updateWallet_mono_theirs dl hh a _ _ h)

theorem updateWallets_mem_mine (dl hh : String → String)
    (ws : List WalletInfo) (acc : List MineEntry × List TheirsEntry)
    {w : WalletInfo} {key xpub : String} (hw : w ∈ ws)
    (hmem : (key, xpub) ∈ w.master_public_keys)
    (hpriv : privTruthy w key = true) :
    (⟨key, hh (dl xpub), w.window⟩ : MineEntry) ∈
      (updateWallets dl hh ws acc).1 := by
  induction ws generalizing acc with
  | nil => cases hw
  | cons a rest ih =>
      rcases List.mem_cons.mp hw with rfl | hrest
      · simp only [updateWallets]
        exact updateWallets_mono_mine dl hh rest _
          (updateWallet_mem_mine dl hh w _ _ hmem hpriv)
      · simp only [updateWallets]
        exact ih _ hrest

theorem updateWallets_mem_theirs (dl hh : String → String)
    (ws : List WalletInfo) (acc : List MineEntry × List TheirsEntry)
    {w : WalletInfo} {key xpub : String} (hw : w ∈ ws)
    (hmem : (key, xpub) ∈ w.master_public_keys)
    (hpriv : privTruthy w key = false) :
    (⟨w.window, xpub, dl xpub, hh (dl xpub)⟩ : TheirsEntry) ∈
      (updateWallets dl hh ws acc).2 := by
  induction ws generalizing acc with
  | nil => cases hw
  | cons a rest ih =>
      rcases List.mem_cons.mp hw with rfl | hrest
      · simp only [updateWallets]
        exact updateWallets_mono_theirs dl hh rest _
          (updateWallet_mem_theirs dl hh w _ _ hmem hpriv)
      · simp only [updateWallets]
        exact ih _ hrest

/-! ## Concrete fixtures used by witnesses and counterexamples -/

/-- A listener watching identifier `"a"`, nothing received yet. -/
def stA : ListenerState := ⟨true, [], ["a"]⟩

/-- A listener watching identifier `"a"` that has already received it. -/
def stB : ListenerState := ⟨true, ["a"], ["a"]⟩

/-- A server oracle whose `get` always raises. -/
def getErrC : Keyhash → GetResult := fun _ => .err

/-- A server oracle holding message `"m1"` for every identifier. -/
def getMsgC : Keyhash → GetResult := fun _ => .msg "m1"

/-- A transaction fixture with one input carrying two `x_pubkeys`. -/
def txC : Tx := ⟨"rawtx", [⟨["x1", "x2"]⟩]⟩

/-- An `x_to_xpub` fixture resolving `"x1"` and `"x2"`. -/
def x2xC : String → Option String := fun s =>
  if s = "x1" then some "xpub1" else if s = "x2" then some "xpub2" else none

/-- A stand-in `bitcoin.encrypt_message` oracle. -/
def encC : String → String → Message := fun raw K => raw ++ ":" ++ K

/-- First cosigner-list entry fixture (window 1). -/
def e1C : TheirsEntry := ⟨1, "xpub1", "K1", "h1"⟩

/-- Second cosigner-list entry fixture (window 2). -/
def e2C : TheirsEntry := ⟨2, "xpub2", "K2", "h2"⟩

/-! ## Claims -/

/-- C1 counterexample: with two cosigner-list entries both able to sign the
transaction and a `server.put` that always raises, `Plugin.do_send` reports
the failure for the first recipient and then `return`s
(`cosigner_pool.py:172`): the trace holds no `put` call for the second
eligible recipient (`countPut "h2" … = 0`), so a `put` failure DOES abort
the attempts to the remaining eligible recipients, contrary to the claim. -/
theorem do_send_counterexample :
    cosigner_can_sign x2xC txC e2C.xpub = true ∧
    do_send (fun _ _ => false) x2xC encC [e1C, e2C] txC =
      [.putCall "h1" "rawtx:K1" false, .printExc, .showMessage 1 sendFailText] ∧
    countPut "h2" (do_send (fun _ _ => false) x2xC encC [e1C, e2C] txC) = 0 := by
  refine ⟨by decide, by decide, by decide⟩

/-- C1 (amended): in the send path, eligible recipients before the first
`put` failure are each served an encrypt-and-put attempt; the first `put`
failure is reported for that recipient (traceback plus a failure dialog on
that recipient's window) and aborts the loop — `do_send` returns
immediately, attempting none of the remaining entries. -/
theorem do_send_failure_aborts (putOk : Keyhash → Message → Bool)
    (x_to_xpub : String → Option String)
    (encrypt_message : String → String → Message)
    (pre post : List TheirsEntry) (e : TheirsEntry) (tx : Tx)
    (hok : ∀ e' ∈ pre, cosigner_can_sign x_to_xpub tx e'.xpub = true →
      putOk e'.hash (encrypt_message tx.raw e'.K) = true)
    (hc : cosigner_can_sign x_to_xpub tx e.xpub = true)
    (hfail : putOk e.hash (encrypt_message tx.raw e.K) = false) :
    do_send putOk x_to_xpub encrypt_message (pre ++ e :: post) tx =
      do_send putOk x_to_xpub encrypt_message pre tx ++
        [.putCall e.hash (encrypt_message tx.raw e.K) false, .printExc,
         .showMessage e.window sendFailText] := by
  rw [do_send_append_of_ok putOk x_to_xpub encrypt_message pre (e :: post) tx hok]
  simp [do_send, hc, hfail]

/-- C1 witness: the amended theorem evaluated with the failing entry first
in the list. -/
theorem do_send_failure_aborts_witness :
    do_send (fun _ _ => false) x2xC encC ([] ++ e1C :: [e2C]) txC =
      do_send (fun _ _ => false) x2xC encC [] txC ++
        [.putCall e1C.hash (encC txC.raw e1C.K) false, .printExc,
         .showMessage e1C.window sendFailText] :=
  do_send_failure_aborts (fun _ _ => false) x2xC encC [] [e2C] e1C txC
    (by simp) (by decide) (by decide)

/-- C2: once an identifier is in `received`, neither the current poll cycle
nor any later cycle emits a `cosigner:receive` notification for it (until a
`clear` removes it — no operation of the polling loop itself does); and
whenever a notification for an identifier is emitted in a cycle, the
identifier is in `received` as of that cycle's end, having been added by the
`self.received.add(keyhash)` that precedes the `emit`
(`cosigner_pool.py:74-76`). -/
theorem received_dedup (get : Keyhash → GetResult) (st : ListenerState)
    (kh : Keyhash) (m : Message) :
    (Event.notify kh m ∈ (runStep get st).2 → kh ∈ (runStep get st).1.received) ∧
    (Event.notify kh m ∈ (runStep get st).2 →
      ∀ (gs : List (Keyhash → GetResult)) (m' : Message),
        Event.notify kh m' ∉ (runCycles gs (runStep get st).1).2) ∧
    (kh ∈ st.received →
      ∀ (gs : List (Keyhash → GetResult)) (m' : Message),
        Event.notify kh m' ∉ (runCycles gs st).2) := by
  refine ⟨fun h => runStep_notify_mem h,
          fun h gs m' => runCycles_no_notify (runStep_notify_mem h),
          fun h gs m' => runCycles_no_notify h⟩

/-- C2 witness: after the cycle that delivered `"a"`, the identifier is in
`received`. -/
theorem received_dedup_witness : "a" ∈ (runStep getMsgC stA).1.received :=
  (received_dedup getMsgC stA "a" "m1").1 (by decide)

/-- C4 counterexample: when `server.get` raises, the listener sleeps
`errorSleep = 30` seconds (`cosigner_pool.py:71`), which equals — and is
not significantly longer than — the normal inter-cycle interval
`pollInterval = 30` ("poll every 30 seconds", `cosigner_pool.py:78-79`). -/
theorem get_failure_counterexample :
    pollKey getErrC stA "a" =
      (stA, [.log "cannot contact cosigner pool", .sleep errorSleep]) ∧
    errorSleep = pollInterval ∧ ¬ pollInterval < errorSleep :=
  ⟨by decide, rfl, by decide⟩

/-- C4 (amended): on a failing `get` the listener logs the error and sleeps
the fixed `errorSleep` backoff — equal to, not significantly longer than,
the normal `pollInterval` — emits no notification and leaves its state
unchanged (in particular it neither crashes nor stops); once the service
recovers, a cycle whose `get` returns a message for a watched, not yet
received identifier emits exactly one notification for it. -/
theorem get_failure_backoff (get get' : Keyhash → GetResult)
    (st st' : ListenerState) (kh : Keyhash) (m : Message) :
    (kh ∉ st.received → get kh = .err →
      pollKey get st kh =
        (st, [.log "cannot contact cosigner pool", .sleep errorSleep]) ∧
      errorSleep = pollInterval) ∧
    (kh ∈ st'.keyhashes → kh ∉ st'.received → get' kh = .msg m →
      countNotify kh (runCycle get' st').2 = 1) := by
  constructor
  · intro h1 h2
    exact ⟨by simp [pollKey, h1, h2], rfl⟩
  · intro h1 h2 h3
    have hne : st'.keyhashes ≠ [] := by
      intro h
      rw [h] at h1
      cases h1
    unfold runCycle
    rw [if_neg hne]
    have hs : countNotify kh [Event.sleep pollInterval] = 0 := by
      simp [countNotify]
    simp [countNotify_append, countNotify_pollKeys_one h2 h1 h3, hs]

/-- C4 witness: the failing-`get` trace at a concrete state, and exactly one
notification in the first successful cycle after recovery. -/
theorem get_failure_backoff_witness :
    (pollKey getErrC stA "a" =
      (stA, [.log "cannot contact cosigner pool", .sleep errorSleep]) ∧
     errorSleep = pollInterval) ∧
    countNotify "a" (runCycle getMsgC stA).2 = 1 :=
  ⟨(get_failure_backoff getErrC getMsgC stA stA "a" "m1").1 (by decide) rfl,
   (get_failure_backoff getErrC getMsgC stA stA "a" "m1").2 (by decide)
     (by decide) rfl⟩

/-- A wallet/window oracle fixture where every step of the receive path
succeeds and decryption yields `"plaintx"`. -/
def envC : Nat → WalletEnv := fun _ =>
  { use_encryption := true
    password_dialog := some "pw"
    question := false
    get_master_private_key := fun _ _ => some "xprv1"
    decrypt := fun _ _ => .ok "plaintx" }

/-- A wallet/window oracle fixture where the password dialog is declined
(returns `None`). -/
def envD : Nat → WalletEnv := fun _ =>
  { use_encryption := true
    password_dialog := none
    question := false
    get_master_private_key := fun _ _ => some "xprv1"
    decrypt := fun _ _ => .ok "plaintx" }

/-- A `self.keys` fixture with one entry for keyhash `"kh1"` on window 7. -/
def keysC : List MineEntry := [⟨"key1", "kh1", 7⟩]

/-- C3: once the receive path has resolved the directory entry, obtained a
truthy password (or an accepted question dialog) and a truthy master
private key, then: if the decrypt block raises, the traceback is printed,
`str(e)` is shown on that entry's window and the method returns — the trace
holds no `clear` call, so the identifier stays in `received` and the remote
record is not deleted; if decryption succeeds, `listener.clear(keyhash)` is
called and then the decrypted payload is handed to `show_transaction`
(`cosigner_pool.py:197-208`). -/
theorem on_receive_decrypt_branch (keys : List MineEntry)
    (env : Nat → WalletEnv) (keyhash : Keyhash) (message : Message)
    (entry : MineEntry) (password : Option String) (xprv : String)
    (hfind : keys.find? (fun e => e.hash == keyhash) = some entry)
    (hpass :
      ((env entry.window).use_encryption = true ∧
        (env entry.window).password_dialog = password ∧
        optTruthy password = true) ∨
      ((env entry.window).use_encryption = false ∧
        (env entry.window).question = true ∧ password = none))
    (hx : (env entry.window).get_master_private_key entry.key password =
      some xprv)
    (hx' : xprv ≠ "") :
    (∀ (deleteOk : Bool) (err : String),
      (env entry.window).decrypt xprv message = .error err →
        on_receive keys env deleteOk keyhash message =
          [.log "signal arrived for", .printExc,
           .showMessage entry.window err] ∧
        RecvEvent.clearCall keyhash ∉
          on_receive keys env deleteOk keyhash message) ∧
    (∀ plain : String,
      (env entry.window).decrypt xprv message = .ok plain →
        on_receive keys env true keyhash message =
          [.log "signal arrived for", .clearCall keyhash,
           .showTransaction entry.window plain]) := by
  have hie : xprv.isEmpty = false := by
    cases hxe : xprv.isEmpty
    · rfl
    · exact absurd ((String.isEmpty_iff xprv).mp hxe) hx'
  have hxt : optTruthy (some xprv) = true := by simp [optTruthy, hie]
  constructor
  · intro deleteOk err hdec
    rcases hpass with ⟨hue, hpd, hot⟩ | ⟨hue, hq, rfl⟩
    · constructor
      · simp [on_receive, hfind, hue, hpd, hot, hx, hxt, hdec]
      · simp [on_receive, hfind, hue, hpd, hot, hx, hxt, hdec]
    · constructor
      · simp [on_receive, hfind, hue, hq, hx, hxt, hdec]
      · simp [on_receive, hfind, hue, hq, hx, hxt, hdec]
  · intro plain hdec
    rcases hpass with ⟨hue, hpd, hot⟩ | ⟨hue, hq, rfl⟩
    · simp [on_receive, hfind, hue, hpd, hot, hx, hxt, hdec]
    · simp [on_receive, hfind, hue, hq, hx, hxt, hdec]

/-- C3 witness: the success branch evaluated on the fixtures. -/
theorem on_receive_decrypt_branch_witness :
    on_receive keysC envC true "kh1" "blob" =
      [.log "signal arrived for", .clearCall "kh1", .showTransaction 7 "plaintx"] :=
  (on_receive_decrypt_branch keysC envC "kh1" "blob" ⟨"key1", "kh1", 7⟩
    (some "pw") "xprv1" (by decide) (Or.inl ⟨rfl, rfl, by decide⟩) rfl
    (by decide)).2 "plaintx" rfl

/-- A wallet fixture for the directory rebuild: window 3, two key slots, a
private key present for `"k1"` only. -/
def wInfoC : WalletInfo :=
  ⟨3, [("k1", "xpubA"), ("k2", "xpubB")], [("k1", "xprvA")]⟩

/-- A stand-in for `bitcoin.deserialize_xkey(xpub)[-1].encode('hex')`. -/
def dlC : String → String := fun s => s ++ "|pt"

/-- A stand-in for `bitcoin.Hash(K).encode('hex')`. -/
def hhC : String → String := fun s => s ++ "|hash"

/-- C5: `Plugin.update` rebuilds `self.keys` / `self.cosigner_list` from
scratch — the result is independent of the previous contents, zero open
wallets yield empty sides, and for every wallet and every
`master_public_keys` item the entry lands on the "mine" side as
`(key, _hash, window)` when the private key is truthily present and on the
"theirs" side as `(window, xpub, K, _hash)` otherwise
(`cosigner_pool.py:119-128`). -/
theorem update_rebuild (dl hh : String → String)
    (prev prev' : List MineEntry × List TheirsEntry)
    (wallets : List WalletInfo) :
    Plugin.update dl hh prev wallets = Plugin.update dl hh prev' wallets ∧
    Plugin.update dl hh prev [] = ([], []) ∧
    (∀ w ∈ wallets, ∀ key xpub : String,
      (key, xpub) ∈ w.master_public_keys →
      (privTruthy w key = true →
        (⟨key, hh (dl xpub), w.window⟩ : MineEntry) ∈
          (Plugin.update dl hh prev wallets).1) ∧
      (privTruthy w key = false →
        (⟨w.window, xpub, dl xpub, hh (dl xpub)⟩ : TheirsEntry) ∈
          (Plugin.update dl hh prev wallets).2)) := by
  refine ⟨rfl, rfl, ?_⟩
  intro w hw key xpub hmem
  exact ⟨fun hp => updateWallets_mem_mine dl hh wallets _ hw hmem hp,
         fun hp => updateWallets_mem_theirs dl hh wallets _ hw hmem hp⟩

/-- C5 witness: the rebuild on one wallet with one private and one
counterpart key. -/
theorem update_rebuild_witness :
    (⟨"k1", hhC (dlC "xpubA"), 3⟩ : MineEntry) ∈
      (Plugin.update dlC hhC ([], []) [wInfoC]).1 ∧
    (⟨3, "xpubB", dlC "xpubB", hhC (dlC "xpubB")⟩ : TheirsEntry) ∈
      (Plugin.update dlC hhC ([], []) [wInfoC]).2 :=
  ⟨((update_rebuild dlC hhC ([], []) ([], []) [wInfoC]).2.2 wInfoC
      (List.mem_singleton_self _) "k1" "xpubA" (by decide)).1 (by decide),
   ((update_rebuild dlC hhC ([], []) ([], []) [wInfoC]).2.2 wInfoC
      (List.mem_singleton_self _) "k2" "xpubB" (by decide)).2 (by decide)⟩

/-- C6: `set_keyhashes` replaces the watch list wholesale and leaves both
`received` and the `running` flag untouched — an identifier already in
`received` stays there whatever the new watch list is
(`cosigner_pool.py:52-53`). -/
theorem set_keyhashes_frame (st : ListenerState) (khs : List Keyhash) :
    (Listener.set_keyhashes st khs).keyhashes = khs ∧
    (Listener.set_keyhashes st khs).received = st.received ∧
    (Listener.set_keyhashes st khs).running = st.running :=
  ⟨rfl, rfl, rfl⟩

/-- C7: identifier derivation is total and deterministic — on every
non-empty input it returns the digest, equal inputs give equal results —
and on empty (malformed) key material it fails with `InvalidKey` instead
of returning a degenerate identifier. -/
theorem derive_props :
    (∀ k : List Nat, k ≠ [] → derive k = .ok (hashDigest k)) ∧
    derive [] = .error .InvalidKey ∧
    (∀ k₁ k₂ : List Nat, k₁ = k₂ → derive k₁ = derive k₂) := by
  refine ⟨?_, rfl, fun k₁ k₂ h => by rw [h]⟩
  intro k hk
  cases k with
  | nil => exact absurd rfl hk
  | cons a l => simp [derive]

/-- C7 witness: the derivation evaluated on a concrete non-empty key. -/
theorem derive_props_witness : derive [1, 2, 3] = .ok (hashDigest [1, 2, 3]) :=
  derive_props.1 [1, 2, 3] (by decide)

/-- C8: `stop()` is idempotent; after a stop, neither a single loop step
nor any sequence of cycles emits an event (no notification after stop);
and the listener constructed on restart (`Listener.__init__`,
`cosigner_pool.py:45-50`, via `Plugin.update`'s `Listener(self)` at
`cosigner_pool.py:113`) starts with an empty `received` set. -/
theorem stop_semantics (st : ListenerState) (get : Keyhash → GetResult)
    (gs : List (Keyhash → GetResult)) :
    Listener.stop (Listener.stop st) = Listener.stop st ∧
    runStep get (Listener.stop st) = (Listener.stop st, []) ∧
    runCycles gs (Listener.stop st) = (Listener.stop st, []) ∧
    (Listener.start Listener.init).received = [] :=
  ⟨rfl, rfl, runCycles_stopped rfl, rfl⟩

/-- C9: `Listener.clear` issues `server.delete(keyhash)` before
`received.remove`: if the delete raises, the exception propagates
(`raised`) and `received` is unchanged — the keyhash is still marked
received; only when the delete returns is the keyhash removed
(`cosigner_pool.py:55-57`). -/
theorem clear_order (st : ListenerState) (kh : Keyhash) :
    Listener.clear false st kh = .raised st ∧
    (Listener.clear false st kh).state.received = st.received ∧
    (kh ∈ st.received →
      kh ∈ (Listener.clear false st kh).state.received ∧
      Listener.clear true st kh =
        .ok { st with received := st.received.erase kh }) := by
  refine ⟨rfl, rfl, fun h => ⟨h, ?_⟩⟩
  simp [Listener.clear, h]

/-- C9 witness: a failing delete on a concrete state leaves `"a"` marked
received; a successful one removes it. -/
theorem clear_order_witness :
    "a" ∈ (Listener.clear false stB "a").state.received ∧
    Listener.clear true stB "a" =
      .ok { stB with received := stB.received.erase "a" } :=
  (clear_order stB "a").2.2 (by decide)

/-- C10: when the user declines the password dialog (falsy password),
refuses the question dialog, or the master private key is falsy,
`on_receive` returns right after the initial log line — no `clear` call —
so the identifier stays in `received`; and any identifier in `received`
is never notified again over any sequence of poll cycles of the current
run (`cosigner_pool.py:184-196` and `cosigner_pool.py:64-66`). -/
theorem on_receive_declined (keys : List MineEntry) (env : Nat → WalletEnv)
    (deleteOk : Bool) (keyhash : Keyhash) (message : Message)
    (entry : MineEntry)
    (hfind : keys.find? (fun e => e.hash == keyhash) = some entry) :
    ((((env entry.window).use_encryption = true ∧
        optTruthy (env entry.window).password_dialog = false) ∨
      ((env entry.window).use_encryption = false ∧
        (env entry.window).question = false)) →
      on_receive keys env deleteOk keyhash message =
        [.log "signal arrived for"]) ∧
    (∀ password : Option String,
      (((env entry.window).use_encryption = true ∧
          (env entry.window).password_dialog = password ∧
          optTruthy password = true) ∨
        ((env entry.window).use_encryption = false ∧
          (env entry.window).question = true ∧ password = none)) →
      optTruthy ((env entry.window).get_master_private_key entry.key
        password) = false →
      on_receive keys env deleteOk keyhash message =
        [.log "signal arrived for"]) ∧
    (∀ (st : ListenerState) (gs : List (Keyhash → GetResult)) (m : Message),
      keyhash ∈ st.received → Event.notify keyhash m ∉ (runCycles gs st).2) := by
  refine ⟨?_, ?_, fun st gs m h => runCycles_no_notify h⟩
  · rintro (⟨hue, hpd⟩ | ⟨hue, hq⟩)
    · simp [on_receive, hfind, hue, hpd]
    · simp [on_receive, hfind, hue, hq]
  · intro password hpass hxf
    rcases hpass with ⟨hue, hpd, hot⟩ | ⟨hue, hq, rfl⟩
    · simp [on_receive, hfind, hue, hpd, hot, hxf]
    · simp [on_receive, hfind, hue, hq, hxf]

/-- C10 witness: a declined password dialog on the fixtures yields only the
initial log line (in particular no `clear` call). -/
theorem on_receive_declined_witness :
    on_receive keysC envD true "kh1" "blob" = [.log "signal arrived for"] :=
  (on_receive_declined keysC envD true "kh1" "blob" ⟨"key1", "kh1", 7⟩
    (by decide)).1 (Or.inl ⟨rfl, rfl⟩)
